import Mathlib

/-!
# Verification of the envoy-upstream-extproc SSRF policy server

Shallow embedding of `pkg/ext-proc/server.go`:

* `parseAddr` embeds Go's `net.ParseIP` (which, in current Go, parses via
  `netip.ParseAddr` and rejects zones, returning the 16-byte `As16` form).
  IP addresses are modelled as `List Nat` of length 16 (byte values),
  exactly the 16-byte `net.IP` slice that `net.ParseIP` returns.
* `to4`, `isLoopback`, `isUnspecified`, `isLinkLocalUnicast`, `isMulticast`,
  `isPrivate` embed the corresponding `net.IP` methods.
* `inTestNets` embeds the four `net.IPNet.Contains` checks that
  `isUpstreamIPSafe` performs against 192.0.2.0/24, 198.51.100.0/24,
  203.0.113.0/24 and 2001:db8::/32.
* `isUpstreamIPSafe` embeds the classifier `isUpstreamIPSafe`;
  `extractUpstreamIP` embeds the attribute extractor; `processLoop`
  embeds the `Process` stream loop.

Recursive functions whose Go originals recurse on strings
(`isUpstreamIPSafe` via `strings.TrimPrefix`, the `parseIPv6` field loop)
are given an explicit fuel argument so that they are structurally
recursive and evaluate by kernel reduction; the fuel supplied by the
wrappers strictly exceeds the input length, and each recursive call
consumes at least one character, so the out-of-fuel branch is
unreachable (made precise by the fuel-irrelevance lemmas below).
-/

/-! ## Characters and digits -/

/-- Decimal digit test, `c >= '0' && c <= '9'` as in Go's parsers. -/
def isDecDigit (c : Char) : Bool := 48 ≤ c.toNat && c.toNat ≤ 57

/-- Hex digit test as in Go's `parseIPv6` field loop. -/
def isHexDigit (c : Char) : Bool :=
  (48 ≤ c.toNat && c.toNat ≤ 57) ||
  (97 ≤ c.toNat && c.toNat ≤ 102) ||
  (65 ≤ c.toNat && c.toNat ≤ 70)

/-- Value of a decimal digit character. -/
def decVal (c : Char) : Nat := c.toNat - 48

/-- Value of a hex digit character. -/
def hexVal (c : Char) : Nat :=
  if 97 ≤ c.toNat then c.toNat - 87
  else if 65 ≤ c.toNat then c.toNat - 55
  else c.toNat - 48

/-- Hex value of a digit string, accumulated left to right exactly like the
`acc = acc<<4 + d` loop in Go's `parseIPv6`. -/
def hexValue (ds : List Char) : Nat := ds.foldl (fun a c => a * 16 + hexVal c) 0

/-! ## IPv4 parsing (`netip.parseIPv4Fields`)

State-carrying recursion over the characters: `val` is the current octet
accumulator, `digLen` the number of digits seen in the current octet,
`fields` the completed octets.  Mirrors the Go loop including the
leading-zero rejection, the `val > 255` rejection, the dot-position
checks and the final field-count check. -/

def parseV4Aux : List Char → Nat → Nat → List Nat → Option (List Nat)
  | [], val, _, fields =>
      if fields.length < 3 then none else some (fields ++ [val])
  | c :: rest, val, digLen, fields =>
      if isDecDigit c then
        if digLen = 1 && val = 0 then none
        else if 255 < val * 10 + decVal c then none
        else parseV4Aux rest (val * 10 + decVal c) (digLen + 1) fields
      else if c = '.' then
        if digLen = 0 then none
        else if rest = [] then none
        else if fields.length = 3 then none
        else parseV4Aux rest 0 0 (fields ++ [val])
      else none

/-- Embeds `netip.parseIPv4`: four decimal octets. -/
def parseV4 (cs : List Char) : Option (List Nat) := parseV4Aux cs 0 0 []

/-- The 16-byte form of an IPv4 address (`netip.Addr.As16` /
`net.IPv4`): ten zero bytes, `0xff 0xff`, then the four octets. -/
def v4mapped (q : List Nat) : List Nat := List.replicate 10 0 ++ [255, 255] ++ q

/-! ## IPv6 parsing (`netip.parseIPv6`) -/

/-- One pass of the `for i < 16` field loop of `netip.parseIPv6`.
`bytes` is the bytes filled so far (the loop's `ip[:i]`), `ell` the
ellipsis position (Go's `ellipsis`, `none` for `-1`).  Returns the final
bytes and ellipsis position; expansion of the ellipsis happens in
`finishV6`.  The fuel argument only makes the recursion structural. -/
def parseV6LoopF : Nat → List Char → List Nat → Option Nat → Option (List Nat × Option Nat)
  | 0, _, _, _ => none
  | Nat.succ fuel, cs, bytes, ell =>
    if 16 ≤ bytes.length then (if cs = [] then some (bytes, ell) else none)
    else
      let ds := cs.takeWhile isHexDigit
      let rest := cs.dropWhile isHexDigit
      if ds = [] then none
      else if 65535 < hexValue ds then none
      else if rest.head? = some '.' then
        if ell = none && !(bytes.length = 12) then none
        else if 16 < bytes.length + 4 then none
        else
          match parseV4 cs with
          | none => none
          | some quad => some (bytes ++ quad, ell)
      else if rest = [] then some (bytes ++ [hexValue ds / 256, hexValue ds % 256], ell)
      else if rest.head? = some ':' then
        if rest.tail = [] then none
        else if rest.tail.head? = some ':' then
          if ell.isSome then none
          else if rest.tail.tail = [] then
            some (bytes ++ [hexValue ds / 256, hexValue ds % 256],
                  some (bytes ++ [hexValue ds / 256, hexValue ds % 256]).length)
          else
            parseV6LoopF fuel rest.tail.tail
              (bytes ++ [hexValue ds / 256, hexValue ds % 256])
              (some (bytes ++ [hexValue ds / 256, hexValue ds % 256]).length)
        else
          parseV6LoopF fuel rest.tail
            (bytes ++ [hexValue ds / 256, hexValue ds % 256]) ell
      else none

/-- Post-loop processing of `netip.parseIPv6`: reject leftover ellipsis on a
full address, expand the ellipsis on a short one. -/
def finishV6 : Option (List Nat × Option Nat) → Option (List Nat)
  | none => none
  | some (bytes, ell) =>
    if bytes.length < 16 then
      match ell with
      | none => none
      | some e => some (bytes.take e ++ List.replicate (16 - bytes.length) 0 ++ bytes.drop e)
    else if ell.isSome then none
    else some bytes

/-- Embeds `netip.parseIPv6` (with `net.ParseIP`'s rejection of `%` zones
folded in: any `%` makes the result `nil`). -/
def parseV6 (cs : List Char) : Option (List Nat) :=
  if cs.contains '%' then none
  else
    match cs with
    | ':' :: ':' :: rest =>
      if rest = [] then some (List.replicate 16 0)
      else finishV6 (parseV6LoopF (rest.length + 1) rest [] (some 0))
    | _ => finishV6 (parseV6LoopF (cs.length + 1) cs [] none)

/-- Embeds `net.ParseIP` (via `netip.ParseAddr`): the first `.`/`:`/`%`
encountered dispatches to the IPv4 parser, the IPv6 parser, or failure;
a string with none of them fails.  The result is always the 16-byte
form (`As16`), with IPv4 results in IPv4-mapped form. -/
def parseAddr (cs : List Char) : Option (List Nat) :=
  match cs.find? (fun c => c == '.' || c == ':' || c == '%') with
  | some '.' => (parseV4 cs).map v4mapped
  | some ':' => parseV6 cs
  | _ => none

/-! ## `net.IP` predicates -/

/-- Byte `i` of an address (all parsed addresses have length 16). -/
def byteAt (ip : List Nat) (i : Nat) : Nat := ip.getD i 0

/-- Embeds `net.IP.To4` for the 16-byte addresses `net.ParseIP` returns:
the trailing four bytes when the address is in IPv4-mapped form. -/
def to4 (ip : List Nat) : Option (List Nat) :=
  if ip.take 12 = List.replicate 10 0 ++ [255, 255] then some (ip.drop 12) else none

/-- Embeds `net.IP.IsLoopback`. -/
def isLoopback (ip : List Nat) : Bool :=
  match to4 ip with
  | some q => byteAt q 0 = 127
  | none => ip = List.replicate 15 0 ++ [1]

/-- Embeds `net.IP.IsUnspecified`: equal to `0.0.0.0` or `::`. -/
def isUnspecified (ip : List Nat) : Bool :=
  ip = v4mapped [0, 0, 0, 0] || ip = List.replicate 16 0

/-- Embeds `net.IP.IsLinkLocalUnicast`. -/
def isLinkLocalUnicast (ip : List Nat) : Bool :=
  match to4 ip with
  | some q => byteAt q 0 = 169 && byteAt q 1 = 254
  | none => byteAt ip 0 = 254 && (128 ≤ byteAt ip 1 && byteAt ip 1 ≤ 191)

/-- Embeds `net.IP.IsMulticast`. -/
def isMulticast (ip : List Nat) : Bool :=
  match to4 ip with
  | some q => 224 ≤ byteAt q 0 && byteAt q 0 ≤ 239
  | none => byteAt ip 0 = 255

/-- Embeds `net.IP.IsPrivate` (RFC 1918 for IPv4, `fc00::/7` for IPv6). -/
def isPrivate (ip : List Nat) : Bool :=
  match to4 ip with
  | some q =>
      byteAt q 0 = 10 ||
      (byteAt q 0 = 172 && (16 ≤ byteAt q 1 && byteAt q 1 ≤ 31)) ||
      (byteAt q 0 = 192 && byteAt q 1 = 168)
  | none => byteAt ip 0 = 252 || byteAt ip 0 = 253

/-- Embeds the four `IPNet.Contains` checks of `isUpstreamIPSafe` against
TEST-NET-1/2/3 (each a 4-byte `/24` network, so IPv6 addresses fail the
length comparison) and `2001:db8::/32` (a 16-byte network, so IPv4 and
IPv4-mapped addresses fail the length comparison after `To4`
normalisation). -/
def inTestNets (ip : List Nat) : Bool :=
  match to4 ip with
  | some q =>
      (byteAt q 0 = 192 && byteAt q 1 = 0 && byteAt q 2 = 2) ||
      (byteAt q 0 = 198 && byteAt q 1 = 51 && byteAt q 2 = 100) ||
      (byteAt q 0 = 203 && byteAt q 1 = 0 && byteAt q 2 = 113)
  | none =>
      byteAt ip 0 = 32 && byteAt ip 1 = 1 && byteAt ip 2 = 13 && byteAt ip 3 = 184

/-! ## The classifier `isUpstreamIPSafe` -/

/-- The characters of the literal `"::ffff:"` tested by
`strings.HasPrefix(ipStr, "::ffff:")`. -/
def mappedPrefixChars : List Char := [':', ':', 'f', 'f', 'f', 'f', ':']

/-- The characters of `"169.254.169.254"`. -/
def awsMetaChars : List Char := "169.254.169.254".toList

/-- The characters of `"fd00:ec2::254"`. -/
def gcpMetaChars : List Char := "fd00:ec2::254".toList

/-- Embeds `isUpstreamIPSafe` from `pkg/ext-proc/server.go` (fuelled; the
recursive call mirrors the self-call on
`strings.TrimPrefix(ipStr, "::ffff:")`).  The Go guard
`ip.To4() == nil && ip.To16() != nil` reduces to `to4 ip = none` because
`To16` is never nil on the 16-byte addresses `net.ParseIP` returns. -/
def isSafeCore : Nat → List Char → Bool × String
  | 0, _ => (false, "")
  | Nat.succ fuel, cs =>
    if cs = [] then (false, "empty IP address")
    else
      match parseAddr cs with
      | none => (false, "invalid IP address")
      | some ip =>
        if isLoopback ip then (false, "localhost/loopback address is blocked")
        else if isUnspecified ip then (false, "unspecified address is blocked")
        else if isLinkLocalUnicast ip then (false, "link-local address is blocked")
        else if isMulticast ip then (false, "multicast address is blocked")
        else if isPrivate ip then (false, "private network address is blocked (RFC1918)")
        else if cs = awsMetaChars then (false, "AWS metadata service IP is blocked")
        else if cs = gcpMetaChars then (false, "GCP metadata service IPv6 is blocked")
        else if to4 ip = none ∧ cs.take 7 = mappedPrefixChars then
          if (isSafeCore fuel (cs.drop 7)).1 = false then
            (false, "IPv4-mapped IPv6 address blocked: " ++ (isSafeCore fuel (cs.drop 7)).2)
          else if inTestNets ip then (false, "documentation/test network range is blocked")
          else (true, "")
        else if inTestNets ip then (false, "documentation/test network range is blocked")
        else (true, "")

/-- `isUpstreamIPSafe(ipStr string) (bool, string)`. -/
def isUpstreamIPSafe (s : String) : Bool × String :=
  isSafeCore (s.toList.length + 1) s.toList

/-! ## The attribute extractor `extractUpstreamIP`

`structpb` values are modelled just deep enough for the code paths the
extractor exercises: a `*structpb.Struct` is an optional record whose
`Fields` map is optional; map entries model the nilable `*structpb.Value`
pointers; `GetStringValue` returns the string of a string-kind value and
`""` for every other kind. -/

/-- A `*structpb.Value`: string kind, or any other kind. -/
inductive PbValue where
  | str (s : String)
  | otherKind
deriving DecidableEq

/-- `Value.GetStringValue`. -/
def getStringValue : PbValue → String
  | .str s => s
  | .otherKind => ""

/-- A `*structpb.Struct` body: its (nilable) `Fields` map, with nilable
values.  Association-list model of the Go map. -/
structure PbStruct where
  fields : Option (List (String × Option PbValue))
deriving DecidableEq

/-- The `attributes map[string]*structpb.Struct` argument (nilable map,
nilable struct pointers). -/
def Attributes := Option (List (String × Option PbStruct))

instance : DecidableEq Attributes := by
  unfold Attributes
  infer_instance

/-- Go map lookup `m[k]`: `none` when the key is absent. -/
def lookupKey {α : Type} (m : List (String × α)) (k : String) : Option α :=
  (m.find? (fun p => p.1 == k)).map Prod.snd

/-- `strings.Split(s, ":")[0]`: the prefix of `s` before its first `':'`
(`strings.Split` with a nonempty separator; element 0 is everything
before the first occurrence, or all of `s` if there is none). -/
def beforeColon (s : String) : String := ⟨s.toList.takeWhile (fun c => c ≠ ':')⟩

/-- Embeds `extractUpstreamIP` from `pkg/ext-proc/server.go`. -/
def extractUpstreamIP (attributes : Attributes) : String :=
  match attributes with
  | none => ""
  | some m =>
    match lookupKey m "envoy.filters.http.ext_proc" with
    | none => ""
    | some none => ""
    | some (some filterAttributes) =>
      match filterAttributes.fields with
      | none => ""
      | some fieldsMap =>
        match lookupKey fieldsMap "upstream.address" with
        | none => ""
        | some none => ""
        | some (some upstream) =>
          let upstreamAddr := getStringValue upstream
          if upstreamAddr = "" then "" else beforeColon upstreamAddr

/-! ## The `Process` stream loop

The envoy ext_proc message types are modelled with exactly the structure
the Go code inspects or builds: the `Request` oneof is either the
`RequestHeaders` phase or any other phase (all treated alike by the
`default` arm), the attributes ride on the `ProcessingRequest`, and a
`ProcessingResponse` is either an `ImmediateResponse` (status code and
body) or a `RequestHeaders` response carrying a `CommonResponse` status,
plus the optional `DynamicMetadata` struct whose two fields the code
sets (`blocked`, `reason`). -/

/-- The `ProcessingRequest.Request` oneof, as far as the type switch in
`Process` distinguishes it. -/
inductive RequestOneof where
  | requestHeaders
  | otherPhase
deriving DecidableEq

/-- A `ProcessingRequest`. -/
structure ProcessingRequest where
  attributes : Attributes
  request : RequestOneof
deriving DecidableEq

/-- `typev3.HttpStatus.Code` as used by the code (`StatusCode_Forbidden`). -/
inductive HttpStatusCode where
  | Forbidden
deriving DecidableEq

/-- `CommonResponse.Status` as used by the code (`CommonResponse_CONTINUE`). -/
inductive CommonStatus where
  | CONTINUE
deriving DecidableEq

/-- The `ProcessingResponse.Response` oneof variants the code builds. -/
inductive ResponseOneof where
  | immediateResponse (status : HttpStatusCode) (body : String)
  | requestHeadersResp (status : CommonStatus)
deriving DecidableEq

/-- The dynamic-metadata struct the deny path builds:
`{"blocked": true-as-bool-value, "reason": reason-as-string-value}`. -/
structure DynMetadata where
  blocked : Bool
  reason : String
deriving DecidableEq

/-- A `ProcessingResponse`. -/
structure ProcessingResponse where
  response : ResponseOneof
  dynamicMetadata : Option DynMetadata
deriving DecidableEq

/-- The allow response built by the `isSafe` branch. -/
def continueResponse : ProcessingResponse :=
  { response := .requestHeadersResp .CONTINUE, dynamicMetadata := none }

/-- The deny response built by the `!isSafe` branch: immediate Forbidden
response whose body is the reason, with `blocked=true` and
`reason=<reason>` dynamic metadata. -/
def denyResponse (reason : String) : ProcessingResponse :=
  { response := .immediateResponse .Forbidden reason,
    dynamicMetadata := some { blocked := true, reason := reason } }

/-- The per-request verdict computed at the top of each loop iteration:
extraction, then classification, with the fail-closed default when no
address was extracted. -/
def verdictFor (attributes : Attributes) : Bool × String :=
  let upstreamIP := extractUpstreamIP attributes
  if upstreamIP ≠ "" then isUpstreamIPSafe upstreamIP
  else (false, "unable to extract upstream IP address")

/-- One loop iteration's `resp` value: the response built for a
header-phase message, or the still-`nil` `resp` for any other phase
(the `default` arm only logs).  `srv.Send(resp)` is called either way. -/
def handleMessage (req : ProcessingRequest) : Option ProcessingResponse :=
  let verdict := verdictFor req.attributes
  match req.request with
  | .requestHeaders =>
    if verdict.1 = false then some (denyResponse verdict.2)
    else some continueResponse
  | .otherPhase => none

/-- What `srv.Recv()` yields on one call: a message, `io.EOF`, or another
receive error. -/
inductive RecvEvent where
  | msg (req : ProcessingRequest)
  | eof
  | recvError

/-- How the `Process` loop terminates.  `starved` is a model artifact for
an input trace that ends without EOF/error/cancellation (the real
`Recv` would block forever); no theorem relies on it. -/
inductive StreamResult where
  | okEOF
  | recvFailed
  | canceled
  | starved
deriving DecidableEq

/-- Whether the stream context is observed canceled at the top of loop
iteration `i` (the `select ctx.Done() / default` check).  `cancelAt k`
models a context canceled from iteration `k` onward; `none` a context
never canceled during the trace. -/
def canceledAt (cancelAt : Option Nat) (i : Nat) : Bool :=
  match cancelAt with
  | none => false
  | some k => k ≤ i

/-- Embeds the `for` loop of `Process`: check cancellation, receive,
handle, send, repeat.  `sent` accumulates every `srv.Send(resp)` call in
order (including `nil` sends from non-header phases); a send error is
only logged in the Go code, so sending never terminates the loop. -/
def processLoop (cancelAt : Option Nat) : Nat → List RecvEvent →
    List (Option ProcessingResponse) → List (Option ProcessingResponse) × StreamResult
  | i, events, sent =>
    if canceledAt cancelAt i then (sent, .canceled)
    else
      match events with
      | [] => (sent, .starved)
      | .eof :: _ => (sent, .okEOF)
      | .recvError :: _ => (sent, .recvFailed)
      | .msg req :: rest => processLoop cancelAt (i + 1) rest (sent ++ [handleMessage req])

/-- A whole `Process` session over a trace of receive events. -/
def Process (cancelAt : Option Nat) (events : List RecvEvent) :
    List (Option ProcessingResponse) × StreamResult :=
  processLoop cancelAt 0 events []

/-! ## Literal IPv4 / IPv4-mapped address strings

To quantify over address literals `a.b.c.d` and `::ffff:a.b.c.d` we fix
the canonical decimal rendering of an octet. -/

/-- The character of a decimal digit. -/
def digitChar (d : Nat) : Char := Char.ofNat (48 + d)

/-- Canonical decimal rendering of an octet value (1–3 digits, no leading
zeros). -/
def fmtOctet (n : Nat) : List Char :=
  if n < 10 then [digitChar n]
  else if n < 100 then [digitChar (n / 10), digitChar (n % 10)]
  else [digitChar (n / 100), digitChar (n / 10 % 10), digitChar (n % 10)]

/-- The characters of the dotted-quad literal `a.b.c.d`. -/
def v4LitChars (a b c d : Nat) : List Char :=
  fmtOctet a ++ ('.' :: (fmtOctet b ++ ('.' :: (fmtOctet c ++ ('.' :: fmtOctet d)))))

/-- The dotted-quad literal `a.b.c.d` as a string. -/
def v4Lit (a b c d : Nat) : String := ⟨v4LitChars a b c d⟩

/-- The IPv4-mapped IPv6 literal `::ffff:a.b.c.d` as a string. -/
def mappedLit (a b c d : Nat) : String := ⟨mappedPrefixChars ++ v4LitChars a b c d⟩

/-! ## Digit-character facts -/

theorem digitChar_toNat {d : Nat} (h : d < 10) : (digitChar d).toNat = 48 + d := by
  interval_cases d <;> decide

theorem isDecDigit_digitChar {d : Nat} (h : d < 10) : isDecDigit (digitChar d) = true := by
  interval_cases d <;> decide

theorem isHexDigit_digitChar {d : Nat} (h : d < 10) : isHexDigit (digitChar d) = true := by
  interval_cases d <;> decide

theorem decVal_digitChar {d : Nat} (h : d < 10) : decVal (digitChar d) = d := by
  interval_cases d <;> decide

theorem hexVal_digitChar {d : Nat} (h : d < 10) : hexVal (digitChar d) = d := by
  interval_cases d <;> decide

theorem digitChar_ne_dot {d : Nat} (h : d < 10) : digitChar d ≠ '.' := by
  interval_cases d <;> decide

theorem digitChar_ne_colon {d : Nat} (h : d < 10) : digitChar d ≠ ':' := by
  interval_cases d <;> decide

theorem digitChar_ne_percent {d : Nat} (h : d < 10) : digitChar d ≠ '%' := by
  interval_cases d <;> decide

theorem digitChar_not_special {d : Nat} (h : d < 10) :
    (digitChar d == '.' || digitChar d == ':' || digitChar d == '%') = false := by
  interval_cases d <;> decide

/-! ## fmtOctet facts -/

theorem fmtOctet_ne_nil (n : Nat) : fmtOctet n ≠ [] := by
  unfold fmtOctet
  split <;> [skip; split] <;> simp

theorem fmtOctet_shape {n : Nat} (hn : n ≤ 255) :
    ∃ k tl, k < 10 ∧ fmtOctet n = digitChar k :: tl := by
  unfold fmtOctet
  split
  · exact ⟨n, [], by omega, rfl⟩
  · split
    · exact ⟨n / 10, _, by omega, rfl⟩
    · exact ⟨n / 100, _, by omega, rfl⟩

theorem mem_fmtOctet {n : Nat} {c : Char} (hn : n ≤ 255) (hc : c ∈ fmtOctet n) :
    ∃ d, d < 10 ∧ c = digitChar d := by
  unfold fmtOctet at hc
  split at hc
  · simp at hc
    exact ⟨n, by omega, hc⟩
  next h1 =>
    split at hc <;> simp at hc
    · rcases hc with h | h
      · exact ⟨n / 10, by omega, h⟩
      · exact ⟨n % 10, by omega, h⟩
    · rcases hc with h | h | h
      · exact ⟨n / 100, by omega, h⟩
      · exact ⟨n / 10 % 10, by omega, h⟩
      · exact ⟨n % 10, by omega, h⟩

/-! ## List scanning helpers -/

theorem find?_append_falsy {p : Char → Bool} {l1 l2 : List Char}
    (h : ∀ c ∈ l1, p c = false) : (l1 ++ l2).find? p = l2.find? p := by
  induction l1 with
  | nil => rfl
  | cons c cs ih =>
    have hc : p c = false := h c (by simp)
    simp only [List.cons_append, List.find?, hc]
    exact ih (fun x hx => h x (by simp [hx]))

theorem takeWhile_append_truthy {p : Char → Bool} {l1 l2 : List Char}
    (h : ∀ c ∈ l1, p c = true) : (l1 ++ l2).takeWhile p = l1 ++ l2.takeWhile p := by
  induction l1 with
  | nil => rfl
  | cons c cs ih =>
    have hc : p c = true := h c (by simp)
    simp only [List.cons_append, List.takeWhile_cons, hc, if_true]
    simp [ih (fun x hx => h x (by simp [hx]))]

theorem dropWhile_append_truthy {p : Char → Bool} {l1 l2 : List Char}
    (h : ∀ c ∈ l1, p c = true) : (l1 ++ l2).dropWhile p = l2.dropWhile p := by
  induction l1 with
  | nil => rfl
  | cons c cs ih =>
    have hc : p c = true := h c (by simp)
    simp only [List.cons_append, List.dropWhile_cons, hc, if_true]
    exact ih (fun x hx => h x (by simp [hx]))

theorem contains_eq_false_of {l : List Char} {c : Char}
    (h : ∀ x ∈ l, x ≠ c) : l.contains c = false := by
  induction l with
  | nil => rfl
  | cons x xs ih =>
    have hx : (c == x) = false := by
      have hxc := h x (by simp)
      simp only [beq_eq_false_iff_ne, ne_eq]
      exact fun hcx => hxc hcx.symm
    simp only [List.contains_cons, hx, Bool.false_or]
    exact ih (fun y hy => h y (by simp [hy]))

/-! ## Parsing the canonical octet rendering -/

/-- Number of digits of the canonical octet rendering. -/
def numDigits (n : Nat) : Nat := if n < 10 then 1 else if n < 100 then 2 else 3

theorem parseV4Aux_digit {c : Char} {d : Nat} (val digLen : Nat) (rest : List Char)
    (fields : List Nat) (hd : d < 10) (hc : c = digitChar d)
    (hnz : ¬(digLen = 1 ∧ val = 0)) (hle : val * 10 + d ≤ 255) :
    parseV4Aux (c :: rest) val digLen fields =
      parseV4Aux rest (val * 10 + d) (digLen + 1) fields := by
  subst hc
  rw [parseV4Aux, if_pos (isDecDigit_digitChar hd)]
  rw [if_neg (by simp only [Bool.and_eq_true, decide_eq_true_eq]; exact hnz)]
  rw [decVal_digitChar hd, if_neg (by omega)]

theorem parseV4Aux_dot (rest : List Char) (val digLen : Nat) (fields : List Nat)
    (hdig : digLen ≠ 0) (hrest : rest ≠ []) (hf : fields.length ≠ 3) :
    parseV4Aux ('.' :: rest) val digLen fields = parseV4Aux rest 0 0 (fields ++ [val]) := by
  rw [parseV4Aux, if_neg (by decide : ¬(isDecDigit '.' = true)), if_pos rfl,
      if_neg hdig, if_neg hrest, if_neg hf]

theorem parseV4Aux_nil (val digLen : Nat) (fields : List Nat) :
    parseV4Aux [] val digLen fields =
      if fields.length < 3 then none else some (fields ++ [val]) := by
  rw [parseV4Aux]

theorem parseV4Aux_fmt_step {n : Nat} (hn : n ≤ 255) (rest : List Char) (fields : List Nat) :
    parseV4Aux (fmtOctet n ++ rest) 0 0 fields = parseV4Aux rest n (numDigits n) fields := by
  unfold fmtOctet numDigits
  split
  next h1 =>
    simp only [List.cons_append, List.nil_append]
    rw [parseV4Aux_digit 0 0 rest fields (by omega) rfl (by omega) (by omega)]
    simp only [Nat.zero_mul, Nat.zero_add]
  next h1 =>
    split
    next h2 =>
      simp only [List.cons_append, List.nil_append]
      rw [parseV4Aux_digit 0 0 _ fields (by omega) rfl (by omega) (by omega)]
      simp only [Nat.zero_mul, Nat.zero_add]
      rw [parseV4Aux_digit (n / 10) 1 rest fields (by omega) rfl (by omega) (by omega)]
      have hval : n / 10 * 10 + n % 10 = n := by omega
      rw [hval]
    next h2 =>
      simp only [List.cons_append, List.nil_append]
      rw [parseV4Aux_digit 0 0 _ fields (by omega) rfl (by omega) (by omega)]
      simp only [Nat.zero_mul, Nat.zero_add]
      rw [parseV4Aux_digit (n / 100) 1 _ fields (by omega) rfl (by omega) (by omega)]
      have hval1 : n / 100 * 10 + n / 10 % 10 = n / 10 := by omega
      rw [hval1]
      rw [parseV4Aux_digit (n / 10) 2 rest fields (by omega) rfl (by omega) (by omega)]
      have hval2 : n / 10 * 10 + n % 10 = n := by omega
      rw [hval2]

theorem numDigits_ne_zero (n : Nat) : numDigits n ≠ 0 := by
  unfold numDigits
  split <;> [omega; split <;> omega]

theorem parseV4_v4Lit {a b c d : Nat} (ha : a ≤ 255) (hb : b ≤ 255) (hc : c ≤ 255)
    (hd : d ≤ 255) : parseV4 (v4LitChars a b c d) = some [a, b, c, d] := by
  unfold parseV4 v4LitChars
  rw [parseV4Aux_fmt_step ha,
      parseV4Aux_dot _ _ _ _ (numDigits_ne_zero a) (by simp [fmtOctet_ne_nil b]) (by simp)]
  rw [parseV4Aux_fmt_step hb,
      parseV4Aux_dot _ _ _ _ (numDigits_ne_zero b) (by simp [fmtOctet_ne_nil c]) (by simp)]
  rw [parseV4Aux_fmt_step hc,
      parseV4Aux_dot _ _ _ _ (numDigits_ne_zero c) (fmtOctet_ne_nil d) (by simp)]
  rw [show fmtOctet d = fmtOctet d ++ [] by simp]
  rw [parseV4Aux_fmt_step hd, parseV4Aux_nil]
  simp

/-! ## Parsing the literal strings -/

theorem v4LitChars_ne_nil (a b c d : Nat) : v4LitChars a b c d ≠ [] := by
  unfold v4LitChars
  intro h
  rcases List.append_eq_nil.mp h with ⟨h1, _⟩
  exact fmtOctet_ne_nil a h1

theorem mem_v4LitChars {a b c d : Nat} {x : Char}
    (ha : a ≤ 255) (hb : b ≤ 255) (hc : c ≤ 255) (hd : d ≤ 255)
    (hx : x ∈ v4LitChars a b c d) : x = '.' ∨ ∃ k, k < 10 ∧ x = digitChar k := by
  unfold v4LitChars at hx
  simp only [List.mem_append, List.mem_cons] at hx
  rcases hx with h | h | h | h | h | h | h
  · exact Or.inr (mem_fmtOctet ha h)
  · exact Or.inl h
  · exact Or.inr (mem_fmtOctet hb h)
  · exact Or.inl h
  · exact Or.inr (mem_fmtOctet hc h)
  · exact Or.inl h
  · exact Or.inr (mem_fmtOctet hd h)

theorem parseAddr_v4Lit {a b c d : Nat} (ha : a ≤ 255) (hb : b ≤ 255) (hc : c ≤ 255)
    (hd : d ≤ 255) : parseAddr (v4LitChars a b c d) = some (v4mapped [a, b, c, d]) := by
  unfold parseAddr
  have hfind : (v4LitChars a b c d).find? (fun c => c == '.' || c == ':' || c == '%')
      = some '.' := by
    unfold v4LitChars
    rw [find?_append_falsy (fun x hx => ?_)]
    · simp [List.find?]
    · obtain ⟨k, hk, rfl⟩ := mem_fmtOctet ha hx
      exact digitChar_not_special hk
  rw [hfind, parseV4_v4Lit ha hb hc hd]
  rfl

theorem to4_v4mapped (q : List Nat) : to4 (v4mapped q) = some q := by
  simp [to4, v4mapped, List.replicate, List.take_cons, List.drop]

theorem hexValue_fmtOctet_le {n : Nat} (hn : n ≤ 255) : hexValue (fmtOctet n) ≤ 65535 := by
  unfold fmtOctet hexValue
  split
  next h1 =>
    simp only [List.foldl]
    rw [hexVal_digitChar (by omega)]
    omega
  next h1 =>
    split
    next h2 =>
      simp only [List.foldl]
      rw [hexVal_digitChar (by omega), hexVal_digitChar (by omega)]
      omega
    next h2 =>
      simp only [List.foldl]
      rw [hexVal_digitChar (by omega), hexVal_digitChar (by omega), hexVal_digitChar (by omega)]
      omega

theorem takeWhile_v4LitChars {a b c d : Nat} (ha : a ≤ 255) :
    (v4LitChars a b c d).takeWhile isHexDigit = fmtOctet a := by
  unfold v4LitChars
  rw [takeWhile_append_truthy (fun x hx => ?_)]
  · simp [List.takeWhile_cons, show isHexDigit '.' = false from by decide]
  · obtain ⟨k, hk, rfl⟩ := mem_fmtOctet ha hx
    exact isHexDigit_digitChar hk

theorem dropWhile_v4LitChars {a b c d : Nat} (ha : a ≤ 255) :
    (v4LitChars a b c d).dropWhile isHexDigit =
      '.' :: (fmtOctet b ++ ('.' :: (fmtOctet c ++ ('.' :: fmtOctet d)))) := by
  unfold v4LitChars
  rw [dropWhile_append_truthy (fun x hx => ?_)]
  · simp [List.dropWhile_cons, show isHexDigit '.' = false from by decide]
  · obtain ⟨k, hk, rfl⟩ := mem_fmtOctet ha hx
    exact isHexDigit_digitChar hk

theorem parseV6_colons {rest : List Char} (h : (':' :: ':' :: rest).contains '%' = false)
    (hne : rest ≠ []) :
    parseV6 (':' :: ':' :: rest) = finishV6 (parseV6LoopF (rest.length + 1) rest [] (some 0)) := by
  simp only [parseV6, h, Bool.false_eq_true, if_false, if_neg hne]

theorem parseAddr_mappedLit {a b c d : Nat} (ha : a ≤ 255) (hb : b ≤ 255) (hc : c ≤ 255)
    (hd : d ≤ 255) :
    parseAddr (mappedPrefixChars ++ v4LitChars a b c d) = some (v4mapped [a, b, c, d]) := by
  have hfind : (mappedPrefixChars ++ v4LitChars a b c d).find?
      (fun c => c == '.' || c == ':' || c == '%') = some ':' := by
    simp [mappedPrefixChars, List.find?]
  unfold parseAddr
  rw [hfind]
  show parseV6 (mappedPrefixChars ++ v4LitChars a b c d) = _
  have hnp : (mappedPrefixChars ++ v4LitChars a b c d).contains '%' = false := by
    apply contains_eq_false_of
    intro x hx
    rcases List.mem_append.mp hx with h | h
    · have hall : ∀ y ∈ mappedPrefixChars, y ≠ '%' := by decide
      exact hall x h
    · rcases mem_v4LitChars ha hb hc hd h with rfl | ⟨k, hk, rfl⟩
      · decide
      · exact digitChar_ne_percent hk
  have hshape : mappedPrefixChars ++ v4LitChars a b c d =
      ':' :: ':' :: ('f' :: 'f' :: 'f' :: 'f' :: ':' :: v4LitChars a b c d) := by
    simp [mappedPrefixChars]
  rw [hshape] at hnp ⊢
  rw [parseV6_colons hnp (by simp)]
  -- first field-loop iteration: the "ffff" field followed by a single colon
  obtain ⟨k, tl, hk, htl⟩ := fmtOctet_shape ha
  have hv4head : v4LitChars a b c d = digitChar k :: (tl ++
      ('.' :: (fmtOctet b ++ ('.' :: (fmtOctet c ++ ('.' :: fmtOctet d)))))) := by
    unfold v4LitChars
    rw [htl]
    simp
  have hxf : isHexDigit 'f' = true := by decide
  have hxc : isHexDigit ':' = false := by decide
  have hv4ne : v4LitChars a b c d ≠ [] := v4LitChars_ne_nil a b c d
  have hv4h : (v4LitChars a b c d).head? = some (digitChar k) := by rw [hv4head]; rfl
  have hfv : hexValue ['f', 'f', 'f', 'f'] = 65535 := by decide
  rw [parseV6LoopF]
  simp only [List.takeWhile_cons, List.dropWhile_cons, hxf, hxc, if_true, if_false,
    Bool.false_eq_true, reduceIte, List.length_nil, List.head?_cons, List.tail_cons,
    List.nil_append, hv4h, ne_eq, hv4ne, Option.some.injEq, digitChar_ne_colon hk,
    hfv, List.length_cons, reduceCtorEq, Nat.reduceDiv, Nat.reduceMod, Nat.reduceLT,
    Nat.reduceLeDiff, decide_False, decide_True, not_false_eq_true]
  rw [if_neg (by decide)]
  -- second iteration: the octet field of `a` followed by a dot
  rw [parseV6LoopF]
  rw [if_neg (by simp)]
  simp only [takeWhile_v4LitChars ha, dropWhile_v4LitChars ha]
  rw [if_neg (by simp [fmtOctet_ne_nil a])]
  rw [if_neg (by have := hexValue_fmtOctet_le ha; omega)]
  rw [if_pos (by simp)]
  rw [if_neg (by simp)]
  rw [if_neg (by simp)]
  rw [show parseV4 (v4LitChars a b c d) = some [a, b, c, d] from parseV4_v4Lit ha hb hc hd]
  simp only [finishV6]
  rw [if_pos (by simp)]
  simp [v4mapped]

/-! ## The classifier on IPv4-mapped literals -/

theorem toList_mk (cs : List Char) : (String.mk cs).toList = cs := rfl

/-- Go's `net.IP` predicates treat an IPv4-mapped address exactly like its
embedded IPv4 address, the textual metadata comparisons cannot tell the two
renderings apart without hitting an earlier range check, and the
`ip.To4() == nil` guard keeps the recursive branch unreachable: the whole
verdict (flag and reason) coincides. -/
theorem isSafe_mapped_eq_v4 {a b c d : Nat} (ha : a ≤ 255) (hb : b ≤ 255) (hc : c ≤ 255)
    (hd : d ≤ 255) :
    isUpstreamIPSafe (mappedLit a b c d) = isUpstreamIPSafe (v4Lit a b c d) := by
  by_cases hA : v4LitChars a b c d = awsMetaChars
  · unfold isUpstreamIPSafe mappedLit v4Lit
    rw [toList_mk, toList_mk, hA]
    decide
  by_cases hG : v4LitChars a b c d = gcpMetaChars
  · exfalso
    have hp := parseAddr_v4Lit ha hb hc hd
    rw [hG] at hp
    have hg : parseAddr gcpMetaChars =
        some [253, 0, 14, 194, 0, 0, 0, 0, 0, 0, 0, 0, 0, 0, 2, 84] := by decide
    rw [hg] at hp
    simp [v4mapped, List.replicate] at hp
  unfold isUpstreamIPSafe mappedLit v4Lit
  rw [toList_mk, toList_mk]
  have hA1 : mappedPrefixChars ++ v4LitChars a b c d ≠ awsMetaChars := by
    intro h
    have h2 := congrArg List.head? h
    have h3 : List.head? awsMetaChars = some '1' := by decide
    rw [h3] at h2
    simp [mappedPrefixChars] at h2
  have hG1 : mappedPrefixChars ++ v4LitChars a b c d ≠ gcpMetaChars := by
    intro h
    have h2 := congrArg List.head? h
    have h3 : List.head? gcpMetaChars = some 'f' := by decide
    rw [h3] at h2
    simp [mappedPrefixChars] at h2
  have hne1 : mappedPrefixChars ++ v4LitChars a b c d ≠ [] := by simp [mappedPrefixChars]
  rw [isSafeCore, isSafeCore]
  simp only [parseAddr_mappedLit ha hb hc hd, parseAddr_v4Lit ha hb hc hd,
    eq_false hA, eq_false hG, eq_false hA1, eq_false hG1,
    eq_false (v4LitChars_ne_nil a b c d), eq_false hne1,
    to4_v4mapped, reduceCtorEq, false_and, if_false]

/-! ## Small text utilities used in claim statements -/

/-- Whether `pat` occurs as a contiguous substring of `s` ("the reason
mentions ..."). -/
def containsText (s pat : String) : Bool :=
  s.toList.tails.any (fun t => pat.toList.isPrefixOf t)

/-- An attribute bundle carrying `value` under the
`envoy.filters.http.ext_proc` namespace and `upstream.address` field. -/
def mkAttrs (value : String) : Attributes :=
  some [("envoy.filters.http.ext_proc",
         some ⟨some [("upstream.address", some (PbValue.str value))]⟩)]

/-! ## Claim C3 -/

/-- Claim C3: classifying an IPv4-mapped-IPv6 literal `::ffff:a.b.c.d`
yields the same allowed boolean as classifying the embedded IPv4 literal
`a.b.c.d` directly. -/
theorem mapped_literal_same_allow (a b c d : Nat) (ha : a ≤ 255) (hb : b ≤ 255)
    (hc : c ≤ 255) (hd : d ≤ 255) :
    (isUpstreamIPSafe (mappedLit a b c d)).1 = (isUpstreamIPSafe (v4Lit a b c d)).1 :=
  congrArg Prod.fst (isSafe_mapped_eq_v4 ha hb hc hd)

/-- Witness for C3 at `::ffff:10.0.0.5` / `10.0.0.5` (a denied pair). -/
theorem mapped_literal_same_allow_witness :
    (isUpstreamIPSafe (mappedLit 10 0 0 5)).1 = (isUpstreamIPSafe (v4Lit 10 0 0 5)).1 ∧
    (isUpstreamIPSafe (v4Lit 10 0 0 5)).1 = false :=
  ⟨mapped_literal_same_allow 10 0 0 5 (by decide) (by decide) (by decide) (by decide),
   by decide⟩

/-! ## Claim C4 -/

/-- Counterexample to C4: the classifier does deny `169.254.169.254`, but
the reason is the generic link-local one and does not mention
"metadata" — the provider-specific comparison is unreachable because the
link-local check fires first. -/
theorem metadata_reason_counterexample :
    (isUpstreamIPSafe "169.254.169.254").1 = false ∧
    (isUpstreamIPSafe "169.254.169.254").2 = "link-local address is blocked" ∧
    containsText (isUpstreamIPSafe "169.254.169.254").2 "metadata" = false := by
  refine ⟨by decide, by decide, by decide⟩

/-- Claim C4 as amended: both cloud-metadata addresses are denied, but with
the generic range reasons — `169.254.169.254` by the link-local check and
`fd00:ec2::254` by the private-range (IPv6 unique-local) check; the
provider-specific reasons are dead code. -/
theorem metadata_addresses_generic_deny :
    isUpstreamIPSafe "169.254.169.254" = (false, "link-local address is blocked") ∧
    isUpstreamIPSafe "fd00:ec2::254" = (false, "private network address is blocked (RFC1918)") := by
  refine ⟨by decide, by decide⟩

/-! ## Claim C8 -/

/-- Counterexample to C8: `::ffff:127.0.0.1` is denied, but its reason is
the plain loopback reason, not prefixed with the IPv4-mapped note — the
recursive branch requires `ip.To4() == nil`, which never holds for an
IPv4-mapped address. -/
theorem mapped_prefix_reason_counterexample :
    isUpstreamIPSafe "::ffff:127.0.0.1" = (false, "localhost/loopback address is blocked") ∧
    "IPv4-mapped IPv6 address blocked: ".toList.isPrefixOf
      (isUpstreamIPSafe "::ffff:127.0.0.1").2.toList = false := by
  refine ⟨by decide, by decide⟩

/-- Claim C8 as amended: for every IPv4-mapped literal `::ffff:a.b.c.d` the
classifier returns exactly the verdict of the embedded IPv4 literal —
same allowed flag and same (unprefixed) reason; the recursive
classification branch is never taken for such literals. -/
theorem mapped_literal_verdict_unprefixed (a b c d : Nat) (ha : a ≤ 255) (hb : b ≤ 255)
    (hc : c ≤ 255) (hd : d ≤ 255) :
    isUpstreamIPSafe (mappedLit a b c d) = isUpstreamIPSafe (v4Lit a b c d) :=
  isSafe_mapped_eq_v4 ha hb hc hd

/-- Witness for the amended C8 at `::ffff:127.0.0.1` / `127.0.0.1`. -/
theorem mapped_literal_verdict_unprefixed_witness :
    isUpstreamIPSafe (mappedLit 127 0 0 1) = isUpstreamIPSafe (v4Lit 127 0 0 1) ∧
    isUpstreamIPSafe (v4Lit 127 0 0 1) = (false, "localhost/loopback address is blocked") :=
  ⟨mapped_literal_verdict_unprefixed 127 0 0 1 (by decide) (by decide) (by decide) (by decide),
   by decide⟩

/-! ## Loop lemmas -/

theorem canceledAt_none (i : Nat) : canceledAt none i = false := rfl

theorem processLoop_msgs (msgs : List ProcessingRequest) (tail : List RecvEvent) (i : Nat)
    (sent : List (Option ProcessingResponse)) :
    processLoop none i (msgs.map RecvEvent.msg ++ tail) sent =
      processLoop none (i + msgs.length) tail (sent ++ msgs.map handleMessage) := by
  induction msgs generalizing i sent with
  | nil => simp
  | cons m ms ih =>
    simp only [List.map_cons, List.cons_append]
    rw [processLoop.eq_def]
    simp only [canceledAt_none, Bool.false_eq_true, if_false]
    rw [ih]
    simp only [List.length_cons]
    rw [show i + 1 + ms.length = i + (ms.length + 1) from by omega]
    simp [List.append_assoc]

theorem processLoop_eof (i : Nat) (tail : List RecvEvent)
    (sent : List (Option ProcessingResponse)) :
    processLoop none i (RecvEvent.eof :: tail) sent = (sent, StreamResult.okEOF) := by
  rw [processLoop.eq_def]
  simp [canceledAt_none]

theorem processLoop_cancel (msgs : List ProcessingRequest) (rest : List RecvEvent)
    (k i : Nat) (sent : List (Option ProcessingResponse)) (hik : i ≤ k)
    (hlen : k - i ≤ msgs.length) :
    processLoop (some k) i (msgs.map RecvEvent.msg ++ rest) sent =
      (sent ++ (msgs.take (k - i)).map handleMessage, StreamResult.canceled) := by
  induction msgs generalizing i sent with
  | nil =>
    have hk : k = i := by simp at hlen; omega
    subst hk
    rw [processLoop.eq_def]
    simp [canceledAt]
  | cons m ms ih =>
    by_cases hki : k ≤ i
    · have hk : k = i := by omega
      subst hk
      rw [processLoop.eq_def]
      simp [canceledAt, Nat.sub_self]
    · have hc : canceledAt (some k) i = false := by
        simp only [canceledAt, decide_eq_false_iff_not]
        omega
      simp only [List.map_cons, List.cons_append]
      rw [processLoop.eq_def]
      simp only [hc, Bool.false_eq_true, if_false]
      rw [ih (i + 1) (sent ++ [handleMessage m]) (by omega) (by simp at hlen ⊢; omega)]
      have hs : k - i = (k - (i + 1)) + 1 := by omega
      rw [hs]
      simp [List.append_assoc]

/-! ## Claim C2 -/

/-- Claim C2: a stream of N header-phase requests yields exactly N
responses, in order, each matching the classifier verdict for that
request's extracted address; the prefix property states that the
responses to the first k requests are already sent before any later
request is read. -/
theorem process_header_stream (reqs : List ProcessingRequest)
    (hall : ∀ r ∈ reqs, r.request = RequestOneof.requestHeaders) :
    Process none (reqs.map RecvEvent.msg ++ [RecvEvent.eof]) =
      (reqs.map (fun r =>
        some (if (verdictFor r.attributes).1 = true then continueResponse
              else denyResponse (verdictFor r.attributes).2)), StreamResult.okEOF) ∧
    (∀ k, (Process none ((reqs.take k).map RecvEvent.msg ++ [RecvEvent.eof])).1 =
      (Process none (reqs.map RecvEvent.msg ++ [RecvEvent.eof])).1.take k) := by
  have hmap : ∀ (l : List ProcessingRequest),
      (∀ r ∈ l, r.request = RequestOneof.requestHeaders) →
      l.map handleMessage = l.map (fun r =>
        some (if (verdictFor r.attributes).1 = true then continueResponse
              else denyResponse (verdictFor r.attributes).2)) := by
    intro l hl
    induction l with
    | nil => rfl
    | cons r rs ih =>
      simp only [List.map_cons]
      rw [ih (fun x hx => hl x (by simp [hx]))]
      have hr := hl r (by simp)
      have : handleMessage r =
          some (if (verdictFor r.attributes).1 = true then continueResponse
                else denyResponse (verdictFor r.attributes).2) := by
        unfold handleMessage
        rw [hr]
        cases hb : (verdictFor r.attributes).1 <;> simp [hb]
      rw [this]
  constructor
  · unfold Process
    rw [processLoop_msgs reqs [RecvEvent.eof] 0 [], processLoop_eof]
    rw [hmap reqs hall]
    simp
  · intro k
    unfold Process
    rw [processLoop_msgs reqs [RecvEvent.eof] 0 [], processLoop_eof,
        processLoop_msgs (reqs.take k) [RecvEvent.eof] 0 [], processLoop_eof]
    simp [List.map_take]

/-- Witness for C2: a two-request header stream (one allowed, one denied). -/
theorem process_header_stream_witness :
    Process none (([{ attributes := mkAttrs "8.8.8.8:443",
                      request := RequestOneof.requestHeaders },
                    { attributes := mkAttrs "127.0.0.1:80",
                      request := RequestOneof.requestHeaders }] :
        List ProcessingRequest).map RecvEvent.msg ++ [RecvEvent.eof]) =
      ([some continueResponse, some (denyResponse "localhost/loopback address is blocked")],
       StreamResult.okEOF) := by
  have h := (process_header_stream
    [{ attributes := mkAttrs "8.8.8.8:443", request := RequestOneof.requestHeaders },
     { attributes := mkAttrs "127.0.0.1:80", request := RequestOneof.requestHeaders }]
    (by decide)).1
  exact h.trans (by decide)

/-! ## Claim C9 -/

/-- Claim C9: once the context is canceled (observed at iteration k), the
loop emits only the responses of the messages handled before the
cancellation, reads nothing further, and terminates with the context's
error. -/
theorem cancel_terminates_stream (k : Nat) (msgs : List ProcessingRequest)
    (rest : List RecvEvent) (hk : k ≤ msgs.length) :
    Process (some k) (msgs.map RecvEvent.msg ++ rest) =
      ((msgs.take k).map handleMessage, StreamResult.canceled) := by
  unfold Process
  rw [processLoop_cancel msgs rest k 0 [] (by omega) (by omega)]
  simp

/-- Witness for C9: cancellation after one of two messages. -/
theorem cancel_terminates_stream_witness :
    Process (some 1)
      (([{ attributes := mkAttrs "8.8.8.8:443", request := RequestOneof.requestHeaders },
         { attributes := mkAttrs "127.0.0.1:80", request := RequestOneof.requestHeaders }] :
        List ProcessingRequest).map RecvEvent.msg ++ [RecvEvent.eof]) =
      ([some continueResponse], StreamResult.canceled) := by
  have h := cancel_terminates_stream 1
    [{ attributes := mkAttrs "8.8.8.8:443", request := RequestOneof.requestHeaders },
     { attributes := mkAttrs "127.0.0.1:80", request := RequestOneof.requestHeaders }]
    [RecvEvent.eof] (by decide)
  exact h.trans (by decide)

/-! ## Claim C6 -/

/-- Counterexample to C6: for a stream consisting of one non-header-phase
message, the loop still performs one send — `srv.Send(resp)` is called
unconditionally with the still-nil `resp` — so the sent sequence is
`[none]`, not empty. -/
theorem nonheader_send_counterexample :
    (Process none [RecvEvent.msg { attributes := none, request := RequestOneof.otherPhase },
                   RecvEvent.eof]).1 = [none] ∧
    (Process none [RecvEvent.msg { attributes := none, request := RequestOneof.otherPhase },
                   RecvEvent.eof]).1 ≠ [] := by
  refine ⟨by decide, by decide⟩

/-- Claim C6 as amended: for a non-header-phase message no policy action is
taken and no response is constructed (the message is only logged), but the
unconditional send still transmits the nil response for that message. -/
theorem nonheader_phase_no_policy_action (req : ProcessingRequest)
    (h : req.request = RequestOneof.otherPhase) :
    handleMessage req = none ∧
    (∀ i events sent, processLoop none i (RecvEvent.msg req :: events) sent =
        processLoop none (i + 1) events (sent ++ [none])) := by
  have hm : handleMessage req = none := by simp [handleMessage, h]
  refine ⟨hm, fun i events sent => ?_⟩
  rw [processLoop.eq_def]
  simp [canceledAt_none, hm]

/-- Witness for the amended C6. -/
theorem nonheader_phase_no_policy_action_witness :
    handleMessage { attributes := none, request := RequestOneof.otherPhase } = none ∧
    processLoop none 0
      [RecvEvent.msg { attributes := none, request := RequestOneof.otherPhase }] [] =
      processLoop none 1 [] [none] := by
  have h := nonheader_phase_no_policy_action
    { attributes := none, request := RequestOneof.otherPhase } rfl
  exact ⟨h.1, h.2 0 [] []⟩

/-! ## Claim C7 -/

/-- Claim C7: a header-phase request whose extracted address is empty or
classified unsafe gets an ImmediateResponse with Forbidden status, body
equal to the deny reason, and dynamic metadata `blocked=true` /
`reason=<reason>`; when no address is extracted, the verdict is the
fail-closed `(false, "unable to extract upstream IP address")`, whose
reason mentions "unable to extract". -/
theorem header_deny_response (req : ProcessingRequest)
    (hreq : req.request = RequestOneof.requestHeaders)
    (hdeny : extractUpstreamIP req.attributes = "" ∨
      (isUpstreamIPSafe (extractUpstreamIP req.attributes)).1 = false) :
    handleMessage req = some
      { response := ResponseOneof.immediateResponse HttpStatusCode.Forbidden
          (verdictFor req.attributes).2,
        dynamicMetadata := some { blocked := true, reason := (verdictFor req.attributes).2 } } ∧
    (extractUpstreamIP req.attributes = "" →
      verdictFor req.attributes = (false, "unable to extract upstream IP address")) ∧
    containsText "unable to extract upstream IP address" "unable to extract" = true := by
  have hv : (verdictFor req.attributes).1 = false := by
    unfold verdictFor
    rcases hdeny with h | h
    · simp [h]
    · by_cases he : extractUpstreamIP req.attributes = ""
      · simp [he]
      · simp [he, h]
  refine ⟨?_, ?_, by decide⟩
  · simp [handleMessage, hreq, hv, denyResponse]
  · intro he
    unfold verdictFor
    simp [he]

/-- Witness for C7: a request with no attributes (address inextractible). -/
theorem header_deny_response_witness :
    handleMessage { attributes := none, request := RequestOneof.requestHeaders } = some
      { response := ResponseOneof.immediateResponse HttpStatusCode.Forbidden
          "unable to extract upstream IP address",
        dynamicMetadata := some { blocked := true
                                , reason := "unable to extract upstream IP address" } } := by
  have h := (header_deny_response { attributes := none, request := RequestOneof.requestHeaders }
    rfl (Or.inl rfl)).1
  exact h.trans (by decide)

/-! ## Claim C10 -/

/-- Claim C10: a header-phase request whose extracted address is classified
safe gets a RequestHeaders response with CONTINUE status and no dynamic
metadata; dynamic metadata appears only on deny responses. -/
theorem header_allow_response (req : ProcessingRequest)
    (hreq : req.request = RequestOneof.requestHeaders)
    (hne : extractUpstreamIP req.attributes ≠ "")
    (hsafe : (isUpstreamIPSafe (extractUpstreamIP req.attributes)).1 = true) :
    handleMessage req = some { response := ResponseOneof.requestHeadersResp CommonStatus.CONTINUE,
                               dynamicMetadata := none } ∧
    (∀ r resp, handleMessage r = some resp → resp.dynamicMetadata ≠ none →
      resp = denyResponse (verdictFor r.attributes).2) := by
  have hv : (verdictFor req.attributes).1 = true := by
    unfold verdictFor
    simp [hne, hsafe]
  constructor
  · simp [handleMessage, hreq, hv, continueResponse]
  · intro r resp hr hmd
    unfold handleMessage at hr
    cases hreq2 : r.request with
    | otherPhase =>
      rw [hreq2] at hr
      simp at hr
    | requestHeaders =>
      rw [hreq2] at hr
      by_cases hv2 : (verdictFor r.attributes).1 = false
      · simp only [hv2, if_true, reduceIte, Option.some.injEq] at hr
        exact hr.symm
      · have hb : (verdictFor r.attributes).1 = true := by
          cases hbb : (verdictFor r.attributes).1
          · exact absurd hbb hv2
          · rfl
        simp only [hb, Bool.true_eq_false, if_false, reduceIte, Option.some.injEq] at hr
        rw [← hr] at hmd
        simp [continueResponse] at hmd

/-- Witness for C10: an allowed upstream. -/
theorem header_allow_response_witness :
    handleMessage { attributes := mkAttrs "8.8.8.8:443",
                    request := RequestOneof.requestHeaders }
      = some { response := ResponseOneof.requestHeadersResp CommonStatus.CONTINUE,
               dynamicMetadata := none } :=
  (header_allow_response
    { attributes := mkAttrs "8.8.8.8:443", request := RequestOneof.requestHeaders }
    rfl (by decide) (by decide)).1

/-! ## Claim C5 -/

theorem takeWhile_until_colon {host port : List Char} (hh : ∀ c ∈ host, c ≠ ':') :
    (host ++ ':' :: port).takeWhile (fun c => c ≠ ':') = host := by
  rw [takeWhile_append_truthy (fun x hx => by simp [hh x hx])]
  simp [List.takeWhile_cons]

/-- Counterexample to C5: an IPv6 socket address `"[2001:db8::1]:443"` is of
the form `host ++ ":" ++ port` with `host = "[2001:db8::1]"`, yet the
extractor returns `"[2001"` (the prefix before the first colon), not the
host. -/
theorem extract_host_counterexample :
    ("[2001:db8::1]:443" : String) = "[2001:db8::1]" ++ ":" ++ "443" ∧
    extractUpstreamIP (mkAttrs "[2001:db8::1]:443") = "[2001" ∧
    extractUpstreamIP (mkAttrs "[2001:db8::1]:443") ≠ "[2001:db8::1]" := by
  refine ⟨by decide, by decide, by decide⟩

theorem extract_mkAttrs (v : String) :
    extractUpstreamIP (mkAttrs v) = if v = "" then "" else beforeColon v := rfl

/-- Claim C5 as amended: the extractor returns the prefix of the stored
value before its first colon — exactly `host` whenever `host` itself
contains no colon — and the empty string, without raising, whenever the
namespace, field, or value is absent or empty, or the value has
non-string kind. -/
theorem extract_before_first_colon (host port : String)
    (hh : ∀ c ∈ host.toList, c ≠ ':') :
    extractUpstreamIP (mkAttrs (host ++ ":" ++ port)) = host ∧
    extractUpstreamIP none = "" ∧
    extractUpstreamIP (some []) = "" ∧
    extractUpstreamIP (some [("envoy.filters.http.ext_proc", none)]) = "" ∧
    extractUpstreamIP (some [("envoy.filters.http.ext_proc", some ⟨none⟩)]) = "" ∧
    extractUpstreamIP (some [("envoy.filters.http.ext_proc", some ⟨some []⟩)]) = "" ∧
    extractUpstreamIP (mkAttrs "") = "" ∧
    extractUpstreamIP (some [("envoy.filters.http.ext_proc",
      some ⟨some [("upstream.address", some PbValue.otherKind)]⟩)]) = "" := by
  refine ⟨?_, rfl, rfl, rfl, rfl, rfl, rfl, rfl⟩
  rw [extract_mkAttrs]
  have hdata : (host ++ ":" ++ port).data = host.data ++ (':' :: port.data) := by
    simp [String.data_append]
  rw [if_neg (by intro h; rw [h] at hdata; exact absurd hdata.symm (by simp))]
  unfold beforeColon
  have htl : (host ++ ":" ++ port).toList = host.data ++ (':' :: port.data) := hdata
  have hh2 : ∀ c ∈ host.data, c ≠ ':' := hh
  rw [htl, takeWhile_until_colon hh2]

/-- Witness for the amended C5. -/
theorem extract_before_first_colon_witness :
    extractUpstreamIP (mkAttrs ("10.0.0.1" ++ ":" ++ "8080")) = "10.0.0.1" :=
  (extract_before_first_colon "10.0.0.1" "8080" (by decide)).1

/-! ## Claim C1: the classifier partition -/

/-- The denylisted ranges of the claim: loopback, unspecified, link-local,
multicast, private (RFC 1918 / IPv6 unique-local), and the
documentation/test ranges. -/
def denylisted (ip : List Nat) : Bool :=
  isLoopback ip || isUnspecified ip || isLinkLocalUnicast ip || isMulticast ip ||
  isPrivate ip || inTestNets ip

/-- Modelled from the spec: "globally-routable, non-reserved IPv4/IPv6
literals".  For IPv4 (including IPv4-mapped) addresses: outside every IANA
special-purpose range (0/8, 10/8, 100.64/10, 127/8, 169.254/16, 172.16/12,
192.0.0/24, 192.0.2/24, 192.88.99/24, 192.168/16, 198.18/15, 198.51.100/24,
203.0.113/24, and everything from 224.0.0.0 up).  For IPv6: inside the IANA
global unicast allocation `2000::/3`. -/
def globallyRoutableSpec (ip : List Nat) : Bool :=
  match to4 ip with
  | some q =>
    !(byteAt q 0 = 0 || byteAt q 0 = 10 || byteAt q 0 = 127 ||
      (byteAt q 0 = 100 && (64 ≤ byteAt q 1 && byteAt q 1 ≤ 127)) ||
      (byteAt q 0 = 169 && byteAt q 1 = 254) ||
      (byteAt q 0 = 172 && (16 ≤ byteAt q 1 && byteAt q 1 ≤ 31)) ||
      (byteAt q 0 = 192 && byteAt q 1 = 0 && byteAt q 2 = 0) ||
      (byteAt q 0 = 192 && byteAt q 1 = 0 && byteAt q 2 = 2) ||
      (byteAt q 0 = 192 && byteAt q 1 = 88 && byteAt q 2 = 99) ||
      (byteAt q 0 = 192 && byteAt q 1 = 168) ||
      (byteAt q 0 = 198 && (byteAt q 1 = 18 || byteAt q 1 = 19)) ||
      (byteAt q 0 = 198 && byteAt q 1 = 51 && byteAt q 2 = 100) ||
      (byteAt q 0 = 203 && byteAt q 1 = 0 && byteAt q 2 = 113) ||
      224 ≤ byteAt q 0)
  | none => 32 ≤ byteAt ip 0 && byteAt ip 0 ≤ 63

set_option maxHeartbeats 1000000 in
/-- During the IPv6 field loop the ellipsis position, once set, never
changes. -/
theorem parseV6LoopF_ell_some {fuel : Nat} {cs : List Char} {bytes bs : List Nat}
    {e : Nat} {el : Option Nat}
    (h : parseV6LoopF fuel cs bytes (some e) = some (bs, el)) : el = some e := by
  induction fuel generalizing cs bytes bs el with
  | zero => exact Option.noConfusion h
  | succ fuel ih =>
    rw [parseV6LoopF] at h
    dsimp only [] at h
    generalize cs.takeWhile isHexDigit = ds at h
    generalize cs.dropWhile isHexDigit = rest at h
    split at h
    · split at h
      · exact (congrArg Prod.snd (Option.some.inj h)).symm
      · exact Option.noConfusion h
    · split at h
      · exact Option.noConfusion h
      split at h
      · exact Option.noConfusion h
      split at h
      · split at h
        · exact Option.noConfusion h
        split at h
        · exact Option.noConfusion h
        split at h
        · exact Option.noConfusion h
        · exact (congrArg Prod.snd (Option.some.inj h)).symm
      split at h
      · exact (congrArg Prod.snd (Option.some.inj h)).symm
      split at h
      · split at h
        · exact Option.noConfusion h
        split at h
        · split at h
          · exact Option.noConfusion h
          · next hfalse => exact absurd (by simp) hfalse
        · exact ih h
      · exact Option.noConfusion h

/-- A literal that starts with `::` parses (when it parses at all) to an
address whose first byte is zero. -/
theorem parseAddr_leading_colons {cs : List Char} {ip : List Nat}
    (hp : parseAddr cs = some ip) (h2 : cs.take 2 = [':', ':']) :
    byteAt ip 0 = 0 := by
  obtain ⟨rest, rfl⟩ : ∃ rest, cs = ':' :: ':' :: rest := by
    cases cs with
    | nil => simp at h2
    | cons a t =>
      cases t with
      | nil => simp at h2
      | cons b u =>
        simp [List.take] at h2
        exact ⟨u, by rw [h2.1, h2.2]⟩
  unfold parseAddr at hp
  rw [show List.find? (fun c => c == '.' || c == ':' || c == '%') (':' :: ':' :: rest)
      = some ':' from by simp [List.find?]] at hp
  unfold parseV6 at hp
  by_cases hper : (':' :: ':' :: rest).contains '%' = true
  · rw [if_pos hper] at hp
    exact absurd hp (by simp)
  rw [if_neg hper] at hp
  by_cases hrest : rest = []
  · subst hrest
    simp at hp
    subst hp
    decide
  · simp only [if_neg hrest] at hp
    rcases hloop : parseV6LoopF (rest.length + 1) rest [] (some 0) with _ | ⟨bs, el⟩
    · rw [hloop] at hp
      exact absurd hp (by simp [finishV6])
    · rw [hloop] at hp
      have hel : el = some 0 := parseV6LoopF_ell_some hloop
      subst hel
      simp only [finishV6] at hp
      by_cases hlen : bs.length < 16
      · rw [if_pos hlen] at hp
        simp only [List.take_zero, List.drop_zero, List.nil_append, Option.some.injEq] at hp
        subst hp
        have hk : 16 - bs.length = (15 - bs.length) + 1 := by omega
        rw [hk]
        simp [List.replicate_succ, byteAt]
      · rw [if_neg hlen] at hp
        exact absurd hp (by simp)

theorem mapped_reason_ne_empty (r : String) :
    ("IPv4-mapped IPv6 address blocked: " ++ r) ≠ "" := by
  intro h
  have hd : ("IPv4-mapped IPv6 address blocked: " : String).data ++ r.data = [] :=
    congrArg String.data h
  rcases List.append_eq_nil.mp hd with ⟨h1, _⟩
  exact absurd h1 (by decide)

/-- Claim C1: the classifier denies — with a non-empty reason — every empty,
unparseable, loopback, unspecified, link-local, multicast, private-range or
documentation-range input, and allows — with an empty reason — every
globally-routable address matching none of the denylisted ranges. -/
theorem classifier_partition :
    (∀ s : String, (s = "" ∨ parseAddr s.toList = none ∨
        (∃ ip, parseAddr s.toList = some ip ∧ denylisted ip = true)) →
      (isUpstreamIPSafe s).1 = false ∧ (isUpstreamIPSafe s).2 ≠ "") ∧
    (∀ (s : String) (ip : List Nat), parseAddr s.toList = some ip →
      globallyRoutableSpec ip = true → denylisted ip = false →
      isUpstreamIPSafe s = (true, "")) := by
  constructor
  · intro s hcase
    unfold isUpstreamIPSafe
    rw [isSafeCore]
    by_cases h0 : s.toList = []
    · rw [if_pos h0]
      exact ⟨by trivial, by decide⟩
    rw [if_neg h0]
    rcases hcase with hs | hp | ⟨ip, hp, hd⟩
    · exact absurd (by rw [hs]; rfl) h0
    · simp only [hp]
      exact ⟨by trivial, by decide⟩
    · simp only [hp]
      by_cases h1 : isLoopback ip = true
      · rw [if_pos h1]; exact ⟨by trivial, by decide⟩
      rw [if_neg h1]
      by_cases h2 : isUnspecified ip = true
      · rw [if_pos h2]; exact ⟨by trivial, by decide⟩
      rw [if_neg h2]
      by_cases h3 : isLinkLocalUnicast ip = true
      · rw [if_pos h3]; exact ⟨by trivial, by decide⟩
      rw [if_neg h3]
      by_cases h4 : isMulticast ip = true
      · rw [if_pos h4]; exact ⟨by trivial, by decide⟩
      rw [if_neg h4]
      by_cases h5 : isPrivate ip = true
      · rw [if_pos h5]; exact ⟨by trivial, by decide⟩
      rw [if_neg h5]
      by_cases hA : s.toList = awsMetaChars
      · rw [if_pos hA]; exact ⟨by trivial, by decide⟩
      rw [if_neg hA]
      by_cases hG : s.toList = gcpMetaChars
      · rw [if_pos hG]; exact ⟨by trivial, by decide⟩
      rw [if_neg hG]
      simp only [Bool.not_eq_true] at h1 h2 h3 h4 h5
      have htn : inTestNets ip = true := by
        cases hx : inTestNets ip
        · exfalso
          unfold denylisted at hd
          rw [hx, h1, h2, h3, h4, h5] at hd
          simp at hd
        · rfl
      by_cases hm : to4 ip = none ∧ s.toList.take 7 = mappedPrefixChars
      · rw [if_pos hm]
        by_cases hrec : (isSafeCore s.toList.length (s.toList.drop 7)).1 = false
        · rw [if_pos hrec]
          exact ⟨by trivial, mapped_reason_ne_empty _⟩
        · rw [if_neg hrec, if_pos htn]
          exact ⟨by trivial, by decide⟩
      · rw [if_neg hm, if_pos htn]
        exact ⟨by trivial, by decide⟩
  · intro s ip hp hroute hdeny
    unfold isUpstreamIPSafe
    rw [isSafeCore]
    have h0 : s.toList ≠ [] := by
      intro h
      rw [h] at hp
      rw [show parseAddr ([] : List Char) = none from rfl] at hp
      exact Option.noConfusion hp
    rw [if_neg h0]
    simp only [hp]
    have e1 : isLoopback ip = false := by
      cases hx : isLoopback ip
      · rfl
      · exfalso; unfold denylisted at hdeny; rw [hx] at hdeny; simp at hdeny
    have e2 : isUnspecified ip = false := by
      cases hx : isUnspecified ip
      · rfl
      · exfalso; unfold denylisted at hdeny; rw [hx] at hdeny; simp at hdeny
    have e3 : isLinkLocalUnicast ip = false := by
      cases hx : isLinkLocalUnicast ip
      · rfl
      · exfalso; unfold denylisted at hdeny; rw [hx] at hdeny; simp at hdeny
    have e4 : isMulticast ip = false := by
      cases hx : isMulticast ip
      · rfl
      · exfalso; unfold denylisted at hdeny; rw [hx] at hdeny; simp at hdeny
    have e5 : isPrivate ip = false := by
      cases hx : isPrivate ip
      · rfl
      · exfalso; unfold denylisted at hdeny; rw [hx] at hdeny; simp at hdeny
    have e6 : inTestNets ip = false := by
      cases hx : inTestNets ip
      · rfl
      · exfalso; unfold denylisted at hdeny; rw [hx] at hdeny; simp at hdeny
    rw [if_neg (by simp [e1]), if_neg (by simp [e2]), if_neg (by simp [e3]),
        if_neg (by simp [e4]), if_neg (by simp [e5])]
    by_cases hA : s.toList = awsMetaChars
    · exfalso
      rw [hA] at hp
      rw [show parseAddr awsMetaChars =
          some [0, 0, 0, 0, 0, 0, 0, 0, 0, 0, 255, 255, 169, 254, 169, 254] from by decide] at hp
      have hip := Option.some.inj hp
      rw [← hip] at e3
      exact absurd e3 (by decide)
    rw [if_neg hA]
    by_cases hG : s.toList = gcpMetaChars
    · exfalso
      rw [hG] at hp
      rw [show parseAddr gcpMetaChars =
          some [253, 0, 14, 194, 0, 0, 0, 0, 0, 0, 0, 0, 0, 0, 2, 84] from by decide] at hp
      have hip := Option.some.inj hp
      rw [← hip] at e5
      exact absurd e5 (by decide)
    rw [if_neg hG]
    by_cases hm : to4 ip = none ∧ s.toList.take 7 = mappedPrefixChars
    · exfalso
      have h2 : s.toList.take 2 = [':', ':'] := by
        have ht := congrArg (List.take 2) hm.2
        rw [List.take_take] at ht
        simpa [mappedPrefixChars] using ht
      have hb0 := parseAddr_leading_colons hp h2
      have h32 : (32 : Nat) ≤ byteAt ip 0 := by
        unfold globallyRoutableSpec at hroute
        simp only [hm.1] at hroute
        simp only [Bool.and_eq_true, decide_eq_true_eq] at hroute
        exact hroute.1
      omega
    rw [if_neg hm]
    rw [if_neg (by simp [e6])]

/-- Witness for C1: loopback denied with a non-empty reason, a public DNS
address allowed with an empty reason. -/
theorem classifier_partition_witness :
    ((isUpstreamIPSafe "127.0.0.1").1 = false ∧ (isUpstreamIPSafe "127.0.0.1").2 ≠ "") ∧
    isUpstreamIPSafe "8.8.8.8" = (true, "") := by
  refine ⟨classifier_partition.1 "127.0.0.1" (Or.inr (Or.inr
    ⟨[0, 0, 0, 0, 0, 0, 0, 0, 0, 0, 255, 255, 127, 0, 0, 1], by decide, by decide⟩)),
    classifier_partition.2 "8.8.8.8"
      [0, 0, 0, 0, 0, 0, 0, 0, 0, 0, 255, 255, 8, 8, 8, 8]
      (by decide) (by decide) (by decide)⟩

/-! ## Fuel irrelevance

Any fuel exceeding the input length yields the same result, so the
`length + 1` fuel supplied by the wrappers is just "enough": the
out-of-fuel branches are unreachable. -/

theorem parseV6LoopF_fuel_irrel : ∀ (f g : Nat) (cs : List Char) (bytes : List Nat)
    (ell : Option Nat), cs.length < f → cs.length < g →
    parseV6LoopF f cs bytes ell = parseV6LoopF g cs bytes ell := by
  intro f
  induction f with
  | zero => intro g cs bytes ell hf _; omega
  | succ f ih =>
    intro g cs bytes ell hf hg
    cases g with
    | zero => omega
    | succ g =>
      rw [parseV6LoopF, parseV6LoopF]
      by_cases h16 : 16 ≤ bytes.length
      · rw [if_pos h16, if_pos h16]
      rw [if_neg h16, if_neg h16]
      dsimp only []
      by_cases hds : cs.takeWhile isHexDigit = []
      · rw [if_pos hds, if_pos hds]
      rw [if_neg hds, if_neg hds]
      by_cases hhv : 65535 < hexValue (cs.takeWhile isHexDigit)
      · rw [if_pos hhv, if_pos hhv]
      rw [if_neg hhv, if_neg hhv]
      by_cases hdot : (cs.dropWhile isHexDigit).head? = some '.'
      · rw [if_pos hdot, if_pos hdot]
      rw [if_neg hdot, if_neg hdot]
      by_cases hre : cs.dropWhile isHexDigit = []
      · rw [if_pos hre, if_pos hre]
      rw [if_neg hre, if_neg hre]
      by_cases hcol : (cs.dropWhile isHexDigit).head? = some ':'
      case neg => rw [if_neg hcol, if_neg hcol]
      rw [if_pos hcol, if_pos hcol]
      have hlen : (cs.dropWhile isHexDigit).length + 1 ≤ cs.length := by
        have h1 : (cs.takeWhile isHexDigit).length + (cs.dropWhile isHexDigit).length
            = cs.length := by
          rw [← List.length_append, List.takeWhile_append_dropWhile]
        have h2 : 1 ≤ (cs.takeWhile isHexDigit).length := by
          cases ht : cs.takeWhile isHexDigit with
          | nil => exact absurd ht hds
          | cons x xs => simp
        omega
      by_cases ht1 : (cs.dropWhile isHexDigit).tail = []
      · rw [if_pos ht1, if_pos ht1]
      rw [if_neg ht1, if_neg ht1]
      have htail : (cs.dropWhile isHexDigit).tail.length + 1
          ≤ (cs.dropWhile isHexDigit).length := by
        cases hd : cs.dropWhile isHexDigit with
        | nil => exact absurd hd hre
        | cons x xs => simp [hd]
      by_cases hcc : (cs.dropWhile isHexDigit).tail.head? = some ':'
      · rw [if_pos hcc, if_pos hcc]
        by_cases hes : ell.isSome
        · rw [if_pos hes, if_pos hes]
        rw [if_neg hes, if_neg hes]
        by_cases htt : (cs.dropWhile isHexDigit).tail.tail = []
        · rw [if_pos htt, if_pos htt]
        rw [if_neg htt, if_neg htt]
        have httl : (cs.dropWhile isHexDigit).tail.tail.length + 1
            ≤ (cs.dropWhile isHexDigit).tail.length := by
          cases hd : (cs.dropWhile isHexDigit).tail with
          | nil => exact absurd hd ht1
          | cons x xs => simp [hd]
        exact ih g _ _ _ (by omega) (by omega)
      · rw [if_neg hcc, if_neg hcc]
        exact ih g _ _ _ (by omega) (by omega)

theorem isSafeCore_fuel_irrel : ∀ (f g : Nat) (cs : List Char),
    cs.length < f → cs.length < g → isSafeCore f cs = isSafeCore g cs := by
  intro f
  induction f with
  | zero => intro g cs hf _; omega
  | succ f ih =>
    intro g cs hf hg
    cases g with
    | zero => omega
    | succ g =>
      rw [isSafeCore, isSafeCore]
      by_cases h0 : cs = []
      · rw [if_pos h0, if_pos h0]
      rw [if_neg h0, if_neg h0]
      cases hp : parseAddr cs with
      | none => simp only [hp]
      | some ip =>
        simp only [hp]
        by_cases hm : to4 ip = none ∧ cs.take 7 = mappedPrefixChars
        · have h7 : 7 ≤ cs.length := by
            have hlt := congrArg List.length hm.2
            rw [List.length_take] at hlt
            have : mappedPrefixChars.length = 7 := by decide
            omega
          have hrec := ih g (cs.drop 7) (by simp [List.length_drop]; omega)
            (by simp [List.length_drop]; omega)
          rw [if_pos hm, if_pos hm, hrec]
        · rw [if_neg hm, if_neg hm]
